import Mathlib

/-!
Verification development for the qumupam repository (a tool that reconciles
which third-party packages are visible per user profile on a multi-user
Android device, driven through adb's package manager).

The repository has two variants of the program:
  * the package entry point `qumupam/__main__.py` together with
    `qumupam/utilities.py` (modelled below at top level and in namespace
    `App`), and
  * the legacy standalone script `qumupam.py` (modelled in namespace
    `Script`).

Pure functions are translated directly; the interactive prompts and the
device are modelled as explicit inputs (a `Prompts` record of the answers
each prompt would return, `none` meaning the operator cancelled, and a
`Device` record holding the catalog, the user list and the textual output
the device returns for each operation).  A run produces the list of
device-mutating operations issued, in order, plus the final
`errors_encountered` flag.
-/

/-- `Package` from `qumupam/utilities.py`: a NamedTuple of the package name
and an optional human-readable label.  Python NamedTuple equality and
hashing compare the whole tuple, which the derived `DecidableEq`
mirrors. -/
structure Package where
  name : String
  label : Option String
deriving DecidableEq, Repr

/-- `Package.__str__`: `"{label} ({name})"` when a label is present, else
just the name. -/
def Package.display : Package → String
  | ⟨name, none⟩ => name
  | ⟨name, some label⟩ => label ++ " (" ++ name ++ ")"

/-- The `Mode` enum shared by both variants. -/
inductive Mode where
  | InstallAll
  | UninstallAll
  | Select
deriving DecidableEq, Repr

/-! ### Character-list helpers modelling Python string primitives -/

/-- Removes `p` from the front of `l`, returning `none` when `l` does not
start with `p`.  Used to model both `str.removeprefix` and the anchoring of
`re.match`. -/
def stripPrefixChars : List Char → List Char → Option (List Char)
  | [], l => some l
  | _ :: _, [] => none
  | c :: cs, d :: ds => if c = d then stripPrefixChars cs ds else none

/-- `str.removeprefix`: strip `p` if present, else return the string
unchanged. -/
def removePrefixChars (p l : List Char) : List Char :=
  match stripPrefixChars p l with
  | some r => r
  | none => l

/-- `str.find(c)`: index of the first occurrence of `c`, `none` standing
for Python's `-1`. -/
def findChar (c : Char) : List Char → Option Nat
  | [] => none
  | x :: xs => if x = c then some 0 else (findChar c xs).map (· + 1)

/-- `str.rfind(c)`: index of the last occurrence of `c`, `none` standing
for Python's `-1`. -/
def rfindChar (c : Char) : List Char → Option Nat
  | [] => none
  | x :: xs =>
    match rfindChar c xs with
    | some i => some (i + 1)
    | none => if x = c then some 0 else none

/-! ### The two success regexes (`utilities.py` bottom / `qumupam.py` bottom)

`install_success_regex = re.compile(r"Package (.*) installed for user: (.*)")`
`uninstall_success_regex = re.compile(r"Success")`

Both are used through `regex.match(output)`, i.e. anchored at the start of
the text but free to stop before its end.  `.` does not match a newline, so
the first capture group may not span a newline; the trailing `(.*)` always
succeeds once the literal part has matched. -/

/-- Scans `l` for a position where the literal `pat` matches, moving right
one character at a time; the characters skipped over stand for the `(.*)`
before the literal, so scanning stops at a newline. -/
def matchScan (pat : List Char) : List Char → Bool
  | [] => (stripPrefixChars pat []).isSome
  | c :: cs =>
    (stripPrefixChars pat (c :: cs)).isSome || (decide (c ≠ '\n') && matchScan pat cs)

/-- `install_success_regex.match(text)` is truthy. -/
def install_success_match (text : String) : Bool :=
  match stripPrefixChars "Package ".data text.data with
  | none => false
  | some rest => matchScan " installed for user: ".data rest

/-- `uninstall_success_regex.match(text)` is truthy: the text starts with
`Success`. -/
def uninstall_success_match (text : String) : Bool :=
  (stripPrefixChars "Success".data text.data).isSome

/-- The classification `__main__.py` applies to each install output
(lines 119-129): `Success` when the regex matches, otherwise a warning
carrying the raw text. -/
inductive InstallOutcome where
  | Success
  | UnexpectedOutput (raw : String)
deriving DecidableEq, Repr

def classify_install (output : String) : InstallOutcome :=
  if install_success_match output then InstallOutcome.Success
  else InstallOutcome.UnexpectedOutput output

/-- Modelled from the spec: the success pattern the specification describes
for an install of package `name` for user `uid` — the returned text is
`Package <name> installed for user: <uid>` with the *actual* installed
package's name and the *actual* target uid. -/
def specInstallSuccess (name : String) (uid : Int) (text : String) : Prop :=
  text = "Package " ++ name ++ " installed for user: " ++ toString uid

/-! ### Directory parsing (`utilities.py`, `get_packages` lines 130-137 and
`get_users` lines 203-221) -/

/-- Parsing of one whitespace-separated token of `pm list packages -f`
output (`get_packages` loop body).  `label` stands for `get_apk_label`,
a device query.  Python's `rfind` returns `-1` when `'='` is absent, and
then `line[i+1:]` is the whole line while `line[:i]` is the line minus its
last character. -/
def parse_package_entry (label : String → Option String) (line : List Char) : Package :=
  let line := removePrefixChars "package:".data line
  match rfindChar '=' line with
  | some i => Package.mk (String.mk (line.drop (i + 1))) (label (String.mk (line.take i)))
  | none => Package.mk (String.mk line) (label (String.mk line.dropLast))

/-- The value of a decimal digit character, `none` otherwise. -/
def decDigit (c : Char) : Option Nat :=
  if c.isDigit then some (c.toNat - 48) else none

/-- The numeral value of a nonempty all-digit string, `none` otherwise. -/
def natFromDigits (l : List Char) : Option Nat :=
  match l with
  | [] => none
  | _ => l.foldl
      (fun acc c =>
        match acc, decDigit c with
        | some n, some d => some (10 * n + d)
        | _, _ => none)
      (some 0)

/-- Python `int(...)` on an optionally-signed decimal string, `none` for
the `ValueError` it otherwise raises (Python's tolerance for surrounding
whitespace and interior underscores is not modelled; no input below uses
them). -/
def pyInt (l : List Char) : Option Int :=
  match l with
  | '-' :: rest => (natFromDigits rest).map (fun n => -(n : Int))
  | '+' :: rest => (natFromDigits rest).map (fun n => (n : Int))
  | _ => (natFromDigits l).map (fun n => (n : Int))

/-- Parsing of one user line of `pm list users` output, after the
`"\tUserInfo{"` prefix has been removed (`get_users` loop body).
`a = s.find(":")`, `b = s.find(":", a+1)`, `name = s[a+1:b]`,
`uid = int(s[:a])`; the Python `-1` results of `find` are expanded into
the slices they produce.  `int(...)` raising `ValueError` (an unhandled
crash) is modelled as `none`. -/
def parse_user_entry (s : List Char) : Option (Int × String) :=
  match findChar ':' s with
  | none =>
    (pyInt s.dropLast).map (fun uid => (uid, String.mk s.dropLast))
  | some a =>
    let name : List Char :=
      match (findChar ':' (s.drop (a + 1))).map (· + a + 1) with
      | some b => (s.take b).drop (a + 1)
      | none => s.dropLast.drop (a + 1)
    (pyInt (s.take a)).map (fun uid => (uid, String.mk name))

/-! ### Users and the unsafe-to-uninstall computation (`utilities.py`
lines 197-247) -/

/-- `User` from `qumupam/utilities.py`: profile name, numeric uid and the
set of packages currently visible to the profile. -/
structure User where
  name : String
  uid : Int
  packages : Finset Package
deriving DecidableEq

/-- The loop of `get_unsafe_to_uninstall`: for each user in order, add
`user.packages ∩ seen` to `safe`, then add `user.packages` to `seen`. -/
def seenSafeLoop : List (Finset Package) → Finset Package → Finset Package →
    Finset Package × Finset Package
  | [], seen, safe => (seen, safe)
  | u :: rest, seen, safe => seenSafeLoop rest (seen ∪ u) (safe ∪ u ∩ seen)

/-- `get_unsafe_to_uninstall(users)`: packages that are installed for only
one user (`seen.difference(safe)` after the loop). -/
def getUnsafeToUninstall (users : List User) : Finset Package :=
  let r := seenSafeLoop (users.map User.packages) ∅ ∅
  r.1 \ r.2

/-! ### Concrete packages used in examples -/

def pkgA : Package := Package.mk "com.a" none
def pkgB : Package := Package.mk "com.b" none
def pkgC : Package := Package.mk "com.c" none

/-! ## The package entry point (`qumupam/__main__.py`, `main`)

Python iterates sets in an unspecified order, and no property below depends
on the order in which the per-package operations are issued, so a run's
operation log is modelled as a `Multiset` of operations. -/

namespace App

/-- The answers the interactive prompts would return during a run; `none`
means the operator cancelled that prompt.  `dispInput` is the free-text
answer to the `input("> ")` disposition prompt for packages that are about
to lose their last user. -/
structure Prompts where
  user : Option User
  mode : Option Mode
  packages : Option (List Package)
  preserve : Option Bool
  dispInput : String

/-- The device as `main` observes it: the full third-party catalog, the
user list, and the text each install-existing / uninstall invocation
returns. -/
structure Device where
  all_packages : Finset Package
  users : List User
  installOut : Package → Int → String
  uninstallOut : Package → Option Int → Bool → String

/-- A device-mutating operation issued during a run.  `scope = none` is the
user-unscoped (global) uninstall `uninstall(package, None, ...)`. -/
inductive Op where
  | install (pkg : Package) (uid : Int)
  | uninstall (pkg : Package) (scope : Option Int) (preserveData : Bool)
deriving DecidableEq, Repr

def Op.pkg : Op → Package
  | Op.install p _ => p
  | Op.uninstall p _ _ => p

/-- The observable outcome of a run: either a prompt was cancelled (early
`return`, nothing issued), or the run finished having issued `ops` with the
final `errors_encountered` flag. -/
inductive RunResult where
  | cancelled
  | finished (ops : Multiset Op) (errors : Bool)
deriving DecidableEq

/-- Lines 69-82 of `__main__.py`: the pending install/uninstall sets
computed from the catalog, the target user's current set and the mode;
`none` models the early `return` when the `Select` package prompt is
cancelled. -/
def pendingOf (allP cur : Finset Package) (mode : Mode) (sel? : Option (List Package)) :
    Option (Finset Package × Finset Package) :=
  match mode with
  | Mode.InstallAll => some (allP \ cur, (∅ : Finset Package))
  | Mode.UninstallAll => some ((∅ : Finset Package), cur)
  | Mode.Select => sel?.map (fun sel => (sel.toFinset \ cur, cur \ sel.toFinset))

/-- Lines 106-110 of `__main__.py`: the disposition prompt for the pending
packages that would lose their last user.  Returns the updated pending
uninstall set and the `remove_packages` flag. -/
def applyDisposition (inp : String) (pendingUninstall pendingUnsafe : Finset Package) :
    Finset Package × Bool :=
  if inp = "remove" then (pendingUninstall, true)
  else if inp = "break" then (pendingUninstall, false)
  else (pendingUninstall \ pendingUnsafe, false)

/-- The text the device returns for an operation. -/
def opOutput (dev : Device) : Op → String
  | Op.install p uid => dev.installOut p uid
  | Op.uninstall p scope pres => dev.uninstallOut p scope pres

/-- Whether the operation's returned text matches its success regex. -/
def opSuccess (dev : Device) (op : Op) : Bool :=
  match op with
  | Op.install _ _ => install_success_match (opOutput dev op)
  | Op.uninstall _ _ _ => uninstall_success_match (opOutput dev op)

/-- The `errors_encountered |= not regex.match(output)` accumulation step
shared by both loops. -/
def orFail (dev : Device) (e : Bool) (op : Op) : Bool :=
  e || !(opSuccess dev op)

instance (dev : Device) : RightCommutative (orFail dev) :=
  ⟨fun b a₁ a₂ => by simp only [orFail, Bool.or_assoc]; rw [Bool.or_comm (!opSuccess dev a₁)]⟩

/-- Lines 114-147 of `__main__.py`: the install loop followed by the
uninstall loop.  Each package of `pendingInstall` is installed for `uid`;
each package of `pendingUninstall` is uninstalled, user-unscoped exactly
when `remove_packages` is set and the package is in `pendingUnsafe`.
`errors_encountered` starts false and is or-ed with each failed match. -/
def execPhase (dev : Device) (uid : Int)
    (pendingInstall pendingUninstall pendingUnsafe : Finset Package)
    (removePkgs preserve : Bool) : Multiset Op × Bool :=
  let instOps := pendingInstall.val.map (fun p => Op.install p uid)
  let uninstOps := pendingUninstall.val.map (fun p =>
    if removePkgs ∧ p ∈ pendingUnsafe then Op.uninstall p none preserve
    else Op.uninstall p (some uid) preserve)
  let ops := instOps + uninstOps
  (ops, Multiset.foldl (orFail dev) false ops)

/-- Lines 84-157 of `__main__.py`: everything after the pending sets are
known.  `preserve_data` defaults to true and is prompted for only when the
pending uninstall set is nonempty; the disposition prompt appears only when
some pending uninstall would lose its last user. -/
def afterReconcile (dev : Device) (user : User) (pr : Prompts)
    (pending : Finset Package × Finset Package) : RunResult :=
  match (if pending.2 = ∅ then some true else pr.preserve) with
  | none => RunResult.cancelled
  | some preserve =>
    let allUnsafe := getUnsafeToUninstall dev.users
    let pendingUnsafe := pending.2 ∩ allUnsafe
    let disp :=
      if pendingUnsafe = ∅ then (pending.2, false)
      else applyDisposition pr.dispInput pending.2 pendingUnsafe
    let r := execPhase dev user.uid pending.1 disp.1 pendingUnsafe disp.2 preserve
    RunResult.finished r.1 r.2

/-- `main` of `qumupam/__main__.py` from the first prompt on (the adb/aapt2
bootstrap and the directory queries preceding the prompts are read-only,
not device mutations). -/
def mainRun (dev : Device) (pr : Prompts) : RunResult :=
  match pr.user with
  | none => RunResult.cancelled
  | some user =>
    match pr.mode with
    | none => RunResult.cancelled
    | some mode =>
      match pendingOf dev.all_packages user.packages mode pr.packages with
      | none => RunResult.cancelled
      | some pending => afterReconcile dev user pr pending

/-- The situations in which some prompt that `main` consults returns no
answer: the user prompt, the mode prompt, the `Select` package prompt, or
the preserve-data prompt (reached only when the pending uninstall set is
nonempty). -/
def cancelCond (dev : Device) (pr : Prompts) : Prop :=
  pr.user = none ∨ pr.mode = none
    ∨ (pr.mode = some Mode.Select ∧ pr.packages = none)
    ∨ (∃ u, pr.user = some u ∧ ∃ m, pr.mode = some m ∧
        ∃ pending, pendingOf dev.all_packages u.packages m pr.packages = some pending ∧
          pending.2 ≠ ∅ ∧ pr.preserve = none)

end App

/-! ## The legacy standalone script (`qumupam.py`, `_main`) -/

namespace Script

/-- `User` of `qumupam.py`: packages are plain name strings there. -/
structure User where
  name : String
  uid : Int
  packages : Finset String
deriving DecidableEq

structure Device where
  all_packages : Finset String
  users : List User
  installOut : String → Int → String
  uninstallOut : String → Int → Bool → String

/-- The prompt answers; `confirm` is the free-text answer to the
`input("Confirmation: ")` gate before an uninstall batch on the owner (or
sole) profile. -/
structure Prompts where
  user : Option User
  mode : Option Mode
  packages : Option (Finset String)
  preserve : Option Bool
  confirm : String

/-- Operations of `_main`; uninstall is always scoped to the target uid
there. -/
inductive Op where
  | install (pkg : String) (uid : Int)
  | uninstall (pkg : String) (uid : Int) (preserveData : Bool)
deriving DecidableEq, Repr

def Op.isInstall : Op → Bool
  | Op.install _ _ => true
  | Op.uninstall _ _ _ => false

/-- `_main` outcomes: a cancelled prompt, the early `return` when the
owner-profile confirmation is not `"remove"` (the installs already issued
are kept), or a finished run. -/
inductive RunResult where
  | cancelled
  | abortedNoConfirm (ops : Multiset Op)
  | finished (ops : Multiset Op) (errors : Bool)
deriving DecidableEq

/-- The operations a run issued, whatever its outcome. -/
def opsOf : RunResult → Multiset Op
  | RunResult.cancelled => 0
  | RunResult.abortedNoConfirm ops => ops
  | RunResult.finished ops _ => ops

/-- Lines 271-283 of `qumupam.py` (the package prompt returns a set
directly there). -/
def pendingOf (allP cur : Finset String) (mode : Mode) (sel? : Option (Finset String)) :
    Option (Finset String × Finset String) :=
  match mode with
  | Mode.InstallAll => some (allP \ cur, (∅ : Finset String))
  | Mode.UninstallAll => some ((∅ : Finset String), cur)
  | Mode.Select => sel?.map (fun sel => (sel \ cur, cur \ sel))

def opSuccess (dev : Device) : Op → Bool
  | Op.install p uid => install_success_match (dev.installOut p uid)
  | Op.uninstall p uid pres => uninstall_success_match (dev.uninstallOut p uid pres)

/-- The error-flag accumulation step of `_main`. -/
def orFail (dev : Device) (e : Bool) (op : Op) : Bool :=
  e || !(opSuccess dev op)

instance (dev : Device) : RightCommutative (orFail dev) :=
  ⟨fun b a₁ a₂ => by simp only [orFail, Bool.or_assoc]; rw [Bool.or_comm (!opSuccess dev a₁)]⟩

/-- `_main` of `qumupam.py` from the first prompt on.  The install loop
runs first; the typed `"remove"` confirmation gates the whole uninstall
batch when the target is the owner (uid 0) or the only profile, and on any
other answer the run returns immediately, keeping the installs already
applied. -/
def run (dev : Device) (pr : Prompts) : RunResult :=
  match pr.user with
  | none => RunResult.cancelled
  | some user =>
    match pr.mode with
    | none => RunResult.cancelled
    | some mode =>
      match pendingOf dev.all_packages user.packages mode pr.packages with
      | none => RunResult.cancelled
      | some pending =>
        match (if pending.2 = ∅ then some true else pr.preserve) with
        | none => RunResult.cancelled
        | some preserve =>
          let instOps := pending.1.val.map (fun p => Op.install p user.uid)
          let instErrs := Multiset.foldl (orFail dev) false instOps
          let uninstOps := pending.2.val.map (fun p => Op.uninstall p user.uid preserve)
          if pending.2 = ∅ then
            RunResult.finished instOps instErrs
          else if user.uid = 0 ∨ dev.users.length = 1 then
            if pr.confirm = "remove" then
              RunResult.finished (instOps + uninstOps)
                (Multiset.foldl (orFail dev) instErrs uninstOps)
            else RunResult.abortedNoConfirm instOps
          else
            RunResult.finished (instOps + uninstOps)
              (Multiset.foldl (orFail dev) instErrs uninstOps)

/-- The situations in which some prompt that `_main` consults returns no
answer. -/
def cancelCond (dev : Device) (pr : Prompts) : Prop :=
  pr.user = none ∨ pr.mode = none
    ∨ (pr.mode = some Mode.Select ∧ pr.packages = none)
    ∨ (∃ u, pr.user = some u ∧ ∃ m, pr.mode = some m ∧
        ∃ pending, pendingOf dev.all_packages u.packages m pr.packages = some pending ∧
          pending.2 ≠ ∅ ∧ pr.preserve = none)

end Script

/-! ### Concrete devices and prompt answers used in witnesses and
counterexamples -/

def devC4 : App.Device := App.Device.mk {pkgA} [] (fun _ _ => "oops") (fun _ _ _ => "oops")

def prC4 : App.Prompts :=
  App.Prompts.mk (some (User.mk "u" 3 ∅)) (some Mode.InstallAll) none (some true) ""

/-- Two users both have `pkgA`, so it is safe; the target is the owner
(uid 0) and the disposition prompt never appears. -/
def devC5 : App.Device :=
  App.Device.mk {pkgA} [User.mk "main" 0 {pkgA}, User.mk "second" 1 {pkgA}]
    (fun _ _ => "") (fun _ _ _ => "Success")

def prC5 : App.Prompts :=
  App.Prompts.mk (some (User.mk "main" 0 {pkgA})) (some Mode.UninstallAll)
    none (some true) ""

def sdevC5 : Script.Device :=
  Script.Device.mk {"a", "b"} [Script.User.mk "main" 0 {"a"}]
    (fun _ _ => "") (fun _ _ _ => "Success")

def sprC5 : Script.Prompts :=
  Script.Prompts.mk (some (Script.User.mk "main" 0 {"a"})) (some Mode.Select)
    (some {"b"}) (some true) ""

def devC6 : App.Device := App.Device.mk ∅ [] (fun _ _ => "") (fun _ _ _ => "")

def prC6 : App.Prompts := App.Prompts.mk none none none none ""

def sdevC6 : Script.Device := Script.Device.mk ∅ [] (fun _ _ => "") (fun _ _ _ => "")

def sprC6 : Script.Prompts := Script.Prompts.mk none none none none ""

/-- A sole owner profile holding `pkgA`, which is therefore unsafe to
uninstall; the operator answers `remove`. -/
def devC10 : App.Device :=
  App.Device.mk {pkgA} [User.mk "main" 0 {pkgA}] (fun _ _ => "") (fun _ _ _ => "Success")

def prC10 : App.Prompts :=
  App.Prompts.mk (some (User.mk "main" 0 {pkgA})) (some Mode.UninstallAll) none
    (some true) "remove"

/-! ## Helper lemmas -/

theorem mem_seenSafeLoop_fst (l : List (Finset Package)) (seen safe : Finset Package)
    (p : Package) :
    p ∈ (seenSafeLoop l seen safe).1 ↔ p ∈ seen ∨ 1 ≤ l.countP (fun u => decide (p ∈ u)) := by
  induction l generalizing seen safe with
  | nil => simp [seenSafeLoop]
  | cons u rest ih =>
    rw [seenSafeLoop, ih, List.countP_cons]
    generalize rest.countP (fun u => decide (p ∈ u)) = c
    by_cases hu : p ∈ u <;> by_cases he : p ∈ seen <;> simp [hu, he]

theorem mem_seenSafeLoop_snd (l : List (Finset Package)) (seen safe : Finset Package)
    (p : Package) :
    p ∈ (seenSafeLoop l seen safe).2 ↔
      p ∈ safe ∨ (p ∈ seen ∧ 1 ≤ l.countP (fun u => decide (p ∈ u)))
        ∨ 2 ≤ l.countP (fun u => decide (p ∈ u)) := by
  induction l generalizing seen safe with
  | nil => simp [seenSafeLoop]
  | cons u rest ih =>
    rw [seenSafeLoop, ih, List.countP_cons]
    generalize rest.countP (fun u => decide (p ∈ u)) = c
    by_cases hu : p ∈ u <;> by_cases hs : p ∈ safe <;> by_cases he : p ∈ seen <;>
      simp [hu, hs, he] <;> omega

/-- A package is in `get_unsafe_to_uninstall(users)` exactly when the number
of entries of `users` whose package set contains it is one. -/
theorem getUnsafe_char (users : List User) (p : Package) :
    p ∈ getUnsafeToUninstall users ↔
      users.countP (fun u => decide (p ∈ u.packages)) = 1 := by
  have hmap : (users.map User.packages).countP (fun s => decide (p ∈ s))
      = users.countP (fun u => decide (p ∈ u.packages)) := by
    rw [List.countP_map]; rfl
  rw [getUnsafeToUninstall]
  simp only [Finset.mem_sdiff, mem_seenSafeLoop_fst, mem_seenSafeLoop_snd, hmap,
    Finset.not_mem_empty, false_or, false_and, or_false]
  generalize users.countP (fun u => decide (p ∈ u.packages)) = c
  simp only [not_le]
  omega

theorem stripPrefixChars_eq_some (p l r : List Char) :
    stripPrefixChars p l = some r ↔ l = p ++ r := by
  induction p generalizing l with
  | nil => simp [stripPrefixChars]
  | cons c cs ih =>
    cases l with
    | nil => simp [stripPrefixChars]
    | cons d ds =>
      rw [stripPrefixChars]
      by_cases h : c = d
      · subst h
        rw [if_pos rfl, ih]
        simp
      · rw [if_neg h]
        simp [Ne.symm h]

theorem stripPrefixChars_isSome (p l : List Char) :
    (stripPrefixChars p l).isSome = true ↔ ∃ r, l = p ++ r := by
  constructor
  · intro h
    rcases Option.isSome_iff_exists.1 h with ⟨r, hr⟩
    exact ⟨r, (stripPrefixChars_eq_some p l r).1 hr⟩
  · rintro ⟨r, rfl⟩
    rw [(stripPrefixChars_eq_some p (p ++ r) r).2 rfl]
    rfl

/-- `matchScan pat l` succeeds exactly when `pat` occurs in `l` with no
newline before the occurrence (the semantics of `(.*)pat` under `re.match`
after the anchored part has been consumed). -/
theorem matchScan_iff (pat l : List Char) :
    matchScan pat l = true ↔ ∃ a s, l = a ++ pat ++ s ∧ '\n' ∉ a := by
  induction l with
  | nil =>
    rw [matchScan, stripPrefixChars_isSome]
    constructor
    · rintro ⟨r, hr⟩
      exact ⟨[], r, by simpa using hr, by simp⟩
    · rintro ⟨a, s, h, -⟩
      have h' : a ++ pat ++ s = [] := h.symm
      rw [List.append_eq_nil, List.append_eq_nil] at h'
      exact ⟨[], by simp [h'.1.2]⟩
  | cons c cs ih =>
    rw [matchScan, Bool.or_eq_true, Bool.and_eq_true, stripPrefixChars_isSome, ih]
    constructor
    · rintro (⟨r, hr⟩ | ⟨hc, a, s, rfl, ha⟩)
      · exact ⟨[], r, by simpa using hr, by simp⟩
      · refine ⟨c :: a, s, rfl, ?_⟩
        simp only [List.mem_cons, not_or]
        exact ⟨fun h => by simp [h.symm] at hc, ha⟩
    · rintro ⟨a, s, h, ha⟩
      cases a with
      | nil => exact Or.inl ⟨s, by simpa using h⟩
      | cons a0 as =>
        rw [List.cons_append, List.cons_append] at h
        injection h with h0 h1
        subst h0
        simp only [List.mem_cons, not_or] at ha
        exact Or.inr ⟨by simpa using Ne.symm ha.1, as, s, h1, ha.2⟩

/-- Full characterisation of the install-success classification: the
returned text must start with `Package `, and ` installed for user: ` must
occur later on the same line; the two capture groups are arbitrary. -/
theorem install_success_match_iff (text : String) :
    install_success_match text = true ↔
      ∃ a s, text.data = "Package ".data ++ a ++ " installed for user: ".data ++ s
        ∧ '\n' ∉ a := by
  rw [install_success_match]
  rcases h : stripPrefixChars "Package ".data text.data with _ | rest
  · constructor
    · intro hF; cases hF
    · rintro ⟨a, s, hd, -⟩
      have h2 : stripPrefixChars "Package ".data text.data
          = some (a ++ " installed for user: ".data ++ s) := by
        rw [stripPrefixChars_eq_some]
        simpa [List.append_assoc] using hd
      rw [h2] at h
      cases h
  · rw [matchScan_iff]
    have hdata := (stripPrefixChars_eq_some _ _ _).1 h
    constructor
    · rintro ⟨a, s, hrest, ha⟩
      exact ⟨a, s, by simp [hdata, hrest, List.append_assoc], ha⟩
    · rintro ⟨a, s, hd, ha⟩
      refine ⟨a, s, ?_, ha⟩
      have h2 : "Package ".data ++ rest
          = "Package ".data ++ (a ++ " installed for user: ".data ++ s) := by
        rw [← hdata, hd]
        simp [List.append_assoc]
      exact List.append_cancel_left h2

theorem App.foldl_orFail_app (dev : App.Device) (s : Multiset App.Op) (b : Bool) :
    Multiset.foldl (App.orFail dev) b s = true
      ↔ b = true ∨ ∃ op ∈ s, App.opSuccess dev op = false := by
  induction s using Multiset.induction_on generalizing b with
  | empty => simp
  | cons a s ih =>
    rw [Multiset.foldl_cons, ih]
    simp only [App.orFail, Bool.or_eq_true, Bool.not_eq_true', Multiset.mem_cons]
    constructor
    · rintro ((hb | ha) | ⟨op, hop, hfail⟩)
      · exact Or.inl hb
      · exact Or.inr ⟨a, Or.inl rfl, ha⟩
      · exact Or.inr ⟨op, Or.inr hop, hfail⟩
    · rintro (hb | ⟨op, (rfl | hop), hfail⟩)
      · exact Or.inl (Or.inl hb)
      · exact Or.inl (Or.inr hfail)
      · exact Or.inr ⟨op, hop, hfail⟩

theorem Script.foldl_orFail_script (dev : Script.Device) (s : Multiset Script.Op) (b : Bool) :
    Multiset.foldl (Script.orFail dev) b s = true
      ↔ b = true ∨ ∃ op ∈ s, Script.opSuccess dev op = false := by
  induction s using Multiset.induction_on generalizing b with
  | empty => simp
  | cons a s ih =>
    rw [Multiset.foldl_cons, ih]
    simp only [Script.orFail, Bool.or_eq_true, Bool.not_eq_true', Multiset.mem_cons]
    constructor
    · rintro ((hb | ha) | ⟨op, hop, hfail⟩)
      · exact Or.inl hb
      · exact Or.inr ⟨a, Or.inl rfl, ha⟩
      · exact Or.inr ⟨op, Or.inr hop, hfail⟩
    · rintro (hb | ⟨op, (rfl | hop), hfail⟩)
      · exact Or.inl (Or.inl hb)
      · exact Or.inl (Or.inr hfail)
      · exact Or.inr ⟨op, hop, hfail⟩

theorem findChar_eq_none (c : Char) (l : List Char) :
    findChar c l = none ↔ c ∉ l := by
  induction l with
  | nil => simp [findChar]
  | cons x xs ih =>
    rw [findChar]
    by_cases h : x = c
    · simp [h]
    · simp [h, ih, Ne.symm h]

theorem rfindChar_eq_none (c : Char) (l : List Char) :
    rfindChar c l = none ↔ c ∉ l := by
  induction l with
  | nil => simp [rfindChar]
  | cons x xs ih =>
    rw [rfindChar]
    rcases hr : rfindChar c xs with _ | i
    · by_cases h : x = c
      · simp [h]
      · simp [h, ← ih, hr, Ne.symm h]
    · simp only [List.mem_cons, not_or]
      constructor
      · intro h; cases h
      · rintro ⟨-, hxs⟩
        rw [← ih] at hxs
        rw [hxs] at hr
        cases hr

/-! ## Claim theorems -/

/-- C1: for every catalog `C`, current set `U` and explicit selection `S`,
the reconciliation of `__main__.py` yields `to_install = C \ U`,
`to_uninstall = ∅` in `InstallAll` mode; `to_install = ∅`,
`to_uninstall = U` in `UninstallAll` mode; and `to_install = S \ U`,
`to_uninstall = U \ S` in `Select` mode. -/
theorem C1_reconciliation (C U : Finset Package) (S : List Package)
    (sel? : Option (List Package)) :
    App.pendingOf C U Mode.InstallAll sel? = some (C \ U, ∅)
    ∧ App.pendingOf C U Mode.UninstallAll sel? = some (∅, U)
    ∧ App.pendingOf C U Mode.Select (some S) = some (S.toFinset \ U, U \ S.toFinset) :=
  ⟨rfl, rfl, rfl⟩

/-- C9: in every mode, the computed `to_install` and `to_uninstall` sets
are disjoint. -/
theorem C9_disjoint (C U : Finset Package) (mode : Mode) (sel? : Option (List Package))
    (ti tu : Finset Package) (h : App.pendingOf C U mode sel? = some (ti, tu)) :
    Disjoint ti tu := by
  cases mode with
  | InstallAll =>
    rw [App.pendingOf] at h
    injection h with h'
    rw [Prod.mk.injEq] at h'
    rw [← h'.1, ← h'.2]
    exact Finset.disjoint_empty_right _
  | UninstallAll =>
    rw [App.pendingOf] at h
    injection h with h'
    rw [Prod.mk.injEq] at h'
    rw [← h'.1, ← h'.2]
    exact Finset.disjoint_empty_left _
  | Select =>
    rcases sel? with _ | sel
    · cases h
    · simp only [App.pendingOf, Option.map_some'] at h
      injection h with h'
      rw [Prod.mk.injEq] at h'
      rw [← h'.1, ← h'.2]
      exact disjoint_sdiff_sdiff

/-- C9 witness: a concrete `Select` reconciliation with disjoint results. -/
theorem C9_witness :
    Disjoint (([pkgB] : List Package).toFinset \ ({pkgA} : Finset Package))
      (({pkgA} : Finset Package) \ ([pkgB] : List Package).toFinset) :=
  C9_disjoint {pkgA, pkgB} {pkgA} Mode.Select (some [pkgB]) _ _ rfl

/-- C2: `get_unsafe_to_uninstall(users)` is exactly the set of packages
appearing in exactly one user's package set; it is invariant under
permuting the user list; and on `[{A,B},{B,C}]` it returns `{A,C}`, on
`[{A},{A}]` it returns `∅`. -/
theorem C2_unsafe_exactly_one :
    (∀ (users : List User) (p : Package),
        p ∈ getUnsafeToUninstall users
          ↔ users.countP (fun u => decide (p ∈ u.packages)) = 1)
    ∧ (∀ (users users' : List User), users.Perm users' →
        getUnsafeToUninstall users = getUnsafeToUninstall users')
    ∧ getUnsafeToUninstall [User.mk "u1" 1 {pkgA, pkgB}, User.mk "u2" 2 {pkgB, pkgC}]
        = {pkgA, pkgC}
    ∧ getUnsafeToUninstall [User.mk "u1" 1 {pkgA}, User.mk "u2" 2 {pkgA}] = ∅ := by
  refine ⟨getUnsafe_char, ?_, by decide, by decide⟩
  intro users users' hperm
  ext p
  rw [getUnsafe_char, getUnsafe_char, hperm.countP_eq]

/-- C2 witness: order-independence at a concrete pair of user lists. -/
theorem C2_witness :
    getUnsafeToUninstall [User.mk "u1" 1 {pkgA}, User.mk "u2" 2 {pkgB}]
      = getUnsafeToUninstall [User.mk "u2" 2 {pkgB}, User.mk "u1" 1 {pkgA}] :=
  C2_unsafe_exactly_one.2.1 _ _ (List.Perm.swap _ _ _)

/-- C8 counterexample: two `Package` values with the same name but
different labels are *not* equal (NamedTuple equality compares the whole
tuple), and they occupy two distinct elements of a set. -/
theorem C8_counterexample :
    Package.mk "com.a" (some "App") ≠ Package.mk "com.a" none
    ∧ ({Package.mk "com.a" (some "App"), Package.mk "com.a" none} : Finset Package).card
        = 2 :=
  ⟨by decide, by decide⟩

/-- C8 amended: `Package` equality is componentwise on the (name, label)
pair, and display is the label followed by the parenthesised name when a
label is present, else the bare name. -/
theorem C8_amended (n₁ n₂ lab : String) (l₁ l₂ : Option String) :
    (Package.mk n₁ l₁ = Package.mk n₂ l₂ ↔ n₁ = n₂ ∧ l₁ = l₂)
    ∧ (Package.mk n₁ none).display = n₁
    ∧ (Package.mk n₁ (some lab)).display = lab ++ " (" ++ n₁ ++ ")" := by
  refine ⟨?_, rfl, rfl⟩
  simp [Package.mk.injEq]

/-- C3 counterexample: installing `com.example.target` for uid 0, the
returned text `Package com.other installed for user: 5` is classified
`Success` although it does not name the installed package or the target
user, contradicting the claim that success requires `<name>`/`<uid>` to be
those of the operation. -/
theorem C3_counterexample :
    classify_install "Package com.other installed for user: 5" = InstallOutcome.Success
    ∧ ¬ specInstallSuccess "com.example.target" 0
        "Package com.other installed for user: 5" := by
  constructor
  · decide
  · unfold specInstallSuccess
    decide

/-- C3 amended: the result is `Success` iff the returned text starts with
`Package `, followed (with no intervening newline) by the literal
` installed for user: `; the two capture groups are arbitrary and are not
compared against the installed package's name or the target uid, and any
other text is classified `UnexpectedOutput`. -/
theorem C3_amended (text : String) :
    classify_install text = InstallOutcome.Success
      ↔ ∃ a s, text.data = "Package ".data ++ a ++ " installed for user: ".data ++ s
          ∧ '\n' ∉ a := by
  rw [← install_success_match_iff]
  by_cases h : install_success_match text = true
  · simp [classify_install, h]
  · simp [classify_install, h]

/-- C7 counterexample: a package line with no `=` is not rejected — it
yields a `Package` whose name is the whole line; a user line with no `:`
whose first characters happen to form an integer is not rejected either —
`12` silently parses as uid 1 with name `1`.  Neither directory operation
has a `ParseError` path. -/
theorem C7_counterexample :
    parse_package_entry (fun _ => none) "package:com.garbled".data
        = Package.mk "com.garbled" none
    ∧ ('=' ∉ "com.garbled".data)
    ∧ parse_user_entry "12".data = some (1, "1")
    ∧ (':' ∉ "12".data) :=
  ⟨by decide, by decide, by decide, by decide⟩

/-- C7 amended: malformed lines are not detected.  A package line with no
`=` silently becomes a `Package` named by the entire line (with the label
looked up at the line minus its final character), and a user line with no
`:` either crashes on the integer conversion of the line minus its final
character or, when that converts, silently yields a wrong user entry. -/
theorem C7_amended :
    (∀ (label : String → Option String) (l : List Char), '=' ∉ l →
        parse_package_entry label ("package:".data ++ l)
          = Package.mk (String.mk l) (label (String.mk l.dropLast)))
    ∧ (∀ s : List Char, ':' ∉ s →
        parse_user_entry s
          = (pyInt s.dropLast).map (fun uid => (uid, String.mk s.dropLast))) := by
  constructor
  · intro label l hl
    have h1 : removePrefixChars "package:".data ("package:".data ++ l) = l := by
      rw [removePrefixChars, (stripPrefixChars_eq_some _ _ _).2 rfl]
    simp only [parse_package_entry, h1, (rfindChar_eq_none '=' l).2 hl]
  · intro s hs
    rw [parse_user_entry, (findChar_eq_none ':' s).2 hs]

/-- C7 witness: the amended behaviour at two concrete malformed lines. -/
theorem C7_witness :
    parse_package_entry (fun _ => none) ("package:".data ++ "noequals".data)
      = Package.mk (String.mk "noequals".data) none
    ∧ parse_user_entry "34".data = some (3, "3") :=
  ⟨C7_amended.1 (fun _ => none) "noequals".data (by decide),
    (C7_amended.2 "34".data (by decide)).trans (by decide)⟩

/-! ## Run-level helper lemmas -/

theorem App.mainRun_finished (dev : App.Device) (pr : App.Prompts)
    (ops : Multiset App.Op) (errs : Bool)
    (h : App.mainRun dev pr = App.RunResult.finished ops errs) :
    ∃ user mode pending, pr.user = some user ∧ pr.mode = some mode
      ∧ App.pendingOf dev.all_packages user.packages mode pr.packages = some pending
      ∧ App.afterReconcile dev user pr pending = App.RunResult.finished ops errs := by
  rw [App.mainRun] at h
  split at h
  · cases h
  · rename_i user hu
    split at h
    · cases h
    · rename_i mode hm
      split at h
      · cases h
      · rename_i pending hp
        exact ⟨user, mode, pending, hu, hm, hp, h⟩

theorem App.afterReconcile_finished (dev : App.Device) (user : User) (pr : App.Prompts)
    (pending : Finset Package × Finset Package) (ops : Multiset App.Op) (errs : Bool)
    (h : App.afterReconcile dev user pr pending = App.RunResult.finished ops errs) :
    ∃ preserve,
      (if pending.2 = ∅ then some true else pr.preserve) = some preserve
      ∧ ops = (App.execPhase dev user.uid pending.1
          (if pending.2 ∩ getUnsafeToUninstall dev.users = ∅ then (pending.2, false)
           else App.applyDisposition pr.dispInput pending.2
             (pending.2 ∩ getUnsafeToUninstall dev.users)).1
          (pending.2 ∩ getUnsafeToUninstall dev.users)
          (if pending.2 ∩ getUnsafeToUninstall dev.users = ∅ then (pending.2, false)
           else App.applyDisposition pr.dispInput pending.2
             (pending.2 ∩ getUnsafeToUninstall dev.users)).2 preserve).1
      ∧ errs = (App.execPhase dev user.uid pending.1
          (if pending.2 ∩ getUnsafeToUninstall dev.users = ∅ then (pending.2, false)
           else App.applyDisposition pr.dispInput pending.2
             (pending.2 ∩ getUnsafeToUninstall dev.users)).1
          (pending.2 ∩ getUnsafeToUninstall dev.users)
          (if pending.2 ∩ getUnsafeToUninstall dev.users = ∅ then (pending.2, false)
           else App.applyDisposition pr.dispInput pending.2
             (pending.2 ∩ getUnsafeToUninstall dev.users)).2 preserve).2 := by
  rw [App.afterReconcile] at h
  split at h
  · cases h
  · rename_i preserve hq
    injection h with h1 h2
    exact ⟨preserve, hq, h1.symm, h2.symm⟩

theorem App.execPhase_uninstall_mem (dev : App.Device) (uid : Int)
    (pi pu pUn : Finset Package) (rm pres : Bool) (p : Package) (sc : Option Int)
    (pd : Bool)
    (h : App.Op.uninstall p sc pd ∈ (App.execPhase dev uid pi pu pUn rm pres).1) :
    p ∈ pu ∧ pd = pres
      ∧ ((sc = none ∧ rm = true ∧ p ∈ pUn)
          ∨ (sc = some uid ∧ (rm = false ∨ p ∉ pUn))) := by
  simp only [App.execPhase, Multiset.mem_add, Multiset.mem_map] at h
  rcases h with ⟨q, hq, heq⟩ | ⟨q, hq, heq⟩
  · cases heq
  · by_cases hc : rm ∧ q ∈ pUn
    · rw [if_pos hc] at heq
      injection heq with h1 h2 h3
      subst h1; subst h2; subst h3
      exact ⟨hq, rfl, Or.inl ⟨rfl, by simp [hc.1], hc.2⟩⟩
    · rw [if_neg hc] at heq
      injection heq with h1 h2 h3
      subst h1; subst h2; subst h3
      rcases Decidable.not_and_iff_or_not.1 hc with hrm | hmem
      · exact ⟨hq, rfl, Or.inr ⟨rfl, Or.inl (by simpa using hrm)⟩⟩
      · exact ⟨hq, rfl, Or.inr ⟨rfl, Or.inr hmem⟩⟩

theorem App.applyDisposition_snd_true (inp : String) (a b : Finset Package)
    (h : (App.applyDisposition inp a b).2 = true) : inp = "remove" := by
  by_cases h1 : inp = "remove"
  · exact h1
  · rw [App.applyDisposition, if_neg h1] at h
    by_cases h2 : inp = "break" <;> simp [h2] at h

/-- C4: a per-package failure never aborts the batch.  The operation log
covers every package of both pending sets regardless of what the device
returns, and the `errors_encountered` flag, which is only consulted in the
end-of-run summary, is true exactly when some issued operation's output
failed its success regex; this holds for the package entry point and the
standalone script alike. -/
theorem C4_never_aborts (dev : App.Device) (uid : Int)
    (pi pu pUn : Finset Package) (rm pres : Bool) :
    ((App.execPhase dev uid pi pu pUn rm pres).1.map App.Op.pkg = pi.val + pu.val)
    ∧ ((App.execPhase dev uid pi pu pUn rm pres).2 = true
        ↔ ∃ op ∈ (App.execPhase dev uid pi pu pUn rm pres).1,
            App.opSuccess dev op = false)
    ∧ (∀ (pr : App.Prompts) (ops : Multiset App.Op) (errs : Bool),
        App.mainRun dev pr = App.RunResult.finished ops errs →
        (errs = true ↔ ∃ op ∈ ops, App.opSuccess dev op = false))
    ∧ (∀ (sdev : Script.Device) (spr : Script.Prompts) (ops : Multiset Script.Op)
        (errs : Bool),
        Script.run sdev spr = Script.RunResult.finished ops errs →
        (errs = true ↔ ∃ op ∈ ops, Script.opSuccess sdev op = false)) := by
  refine ⟨?_, ?_, ?_, ?_⟩
  · simp only [App.execPhase, Multiset.map_add, Multiset.map_map]
    congr 1
    · exact Multiset.map_congr rfl (fun p _ => rfl) |>.trans (Multiset.map_id _)
    · refine (Multiset.map_congr rfl (fun p _ => ?_)).trans (Multiset.map_id _)
      by_cases hc : rm ∧ p ∈ pUn <;> simp [hc, App.Op.pkg]
  · rw [show (App.execPhase dev uid pi pu pUn rm pres).2
        = Multiset.foldl (App.orFail dev) false (App.execPhase dev uid pi pu pUn rm pres).1
        from rfl, App.foldl_orFail_app]
    simp
  · intro pr ops errs h
    obtain ⟨user, mode, pending, -, -, -, hAfter⟩ := App.mainRun_finished dev pr ops errs h
    obtain ⟨preserve, -, hops, herrs⟩ :=
      App.afterReconcile_finished dev user pr pending ops errs hAfter
    rw [herrs, hops]
    rw [show ∀ a b c d e f, (App.execPhase a b c d e f preserve).2
        = Multiset.foldl (App.orFail a) false (App.execPhase a b c d e f preserve).1
        from fun _ _ _ _ _ _ => rfl, App.foldl_orFail_app]
    simp
  · intro sdev spr ops errs h
    rw [Script.run] at h
    split at h; · cases h
    split at h; · cases h
    split at h; · cases h
    split at h; · cases h
    rename_i user hu mode hm pending hp preserve hq
    split at h
    · injection h with h1 h2
      subst h1; subst h2
      rw [Script.foldl_orFail_script]
      simp
    · split at h
      · split at h
        · injection h with h1 h2
          subst h1; subst h2
          rw [← Multiset.foldl_add, Script.foldl_orFail_script]
          simp
        · cases h
      · injection h with h1 h2
        subst h1; subst h2
        rw [← Multiset.foldl_add, Script.foldl_orFail_script]
        simp

/-- C4 witness: a run whose single install returns non-matching text
finishes with `errors_encountered = true`. -/
theorem C4_witness :
    (true = true ↔ ∃ op ∈ ({App.Op.install pkgA 3} : Multiset App.Op),
        App.opSuccess devC4 op = false) :=
  (C4_never_aborts devC4 3 ∅ ∅ ∅ false true).2.2.1 prC4 {App.Op.install pkgA 3} true
    (by decide)

/-- C10: in every finished run of the package entry point, a user-unscoped
(global) uninstall is issued only for a package of the unsafe pending
subset and only when the disposition input is exactly `remove`; and for any
disposition input other than `remove` or `break`, every issued uninstall is
scoped to the target user's uid and concerns a package that is not unsafe. -/
theorem C10_global_uninstall_gate (dev : App.Device) (pr : App.Prompts)
    (ops : Multiset App.Op) (errs : Bool)
    (h : App.mainRun dev pr = App.RunResult.finished ops errs) :
    (∀ (p : Package) (pd : Bool), App.Op.uninstall p none pd ∈ ops →
        pr.dispInput = "remove" ∧ p ∈ getUnsafeToUninstall dev.users)
    ∧ (pr.dispInput ≠ "remove" → pr.dispInput ≠ "break" →
        ∀ (p : Package) (sc : Option Int) (pd : Bool),
          App.Op.uninstall p sc pd ∈ ops →
          (∃ u, pr.user = some u ∧ sc = some u.uid)
          ∧ p ∉ getUnsafeToUninstall dev.users) := by
  obtain ⟨user, mode, pending, hu, -, -, hAfter⟩ := App.mainRun_finished dev pr ops errs h
  obtain ⟨preserve, -, hops, -⟩ :=
    App.afterReconcile_finished dev user pr pending ops errs hAfter
  constructor
  · intro p pd hmem
    rw [hops] at hmem
    obtain ⟨hpu, -, hcase⟩ := App.execPhase_uninstall_mem _ _ _ _ _ _ _ _ _ _ hmem
    rcases hcase with ⟨-, hrm, hpUn⟩ | ⟨hsc, -⟩
    · constructor
      · by_cases hz : pending.2 ∩ getUnsafeToUninstall dev.users = ∅
        · rw [if_pos hz] at hrm
          cases hrm
        · rw [if_neg hz] at hrm
          exact App.applyDisposition_snd_true _ _ _ hrm
      · exact (Finset.mem_inter.1 hpUn).2
    · cases hsc
  · intro h1 h2 p sc pd hmem
    rw [hops] at hmem
    obtain ⟨hpu, -, hcase⟩ := App.execPhase_uninstall_mem _ _ _ _ _ _ _ _ _ _ hmem
    have hdisp2 : (if pending.2 ∩ getUnsafeToUninstall dev.users = ∅ then (pending.2, false)
        else App.applyDisposition pr.dispInput pending.2
          (pending.2 ∩ getUnsafeToUninstall dev.users)).2 = false := by
      by_cases hz : pending.2 ∩ getUnsafeToUninstall dev.users = ∅
      · rw [if_pos hz]
      · rw [if_neg hz, App.applyDisposition, if_neg h1, if_neg h2]
    rcases hcase with ⟨-, hrm, -⟩ | ⟨hsc, -⟩
    · rw [hdisp2] at hrm
      cases hrm
    · refine ⟨⟨user, hu, hsc⟩, ?_⟩
      intro hx
      by_cases hz : pending.2 ∩ getUnsafeToUninstall dev.users = ∅
      · rw [if_pos hz] at hpu
        exact absurd (Finset.mem_inter.2 ⟨hpu, hx⟩)
          (by rw [hz]; exact Finset.not_mem_empty p)
      · rw [if_neg hz, App.applyDisposition, if_neg h1, if_neg h2] at hpu
        rcases Finset.mem_sdiff.1 hpu with ⟨hp2, hnot⟩
        exact hnot (Finset.mem_inter.2 ⟨hp2, hx⟩)

/-- C10 witness: with a sole owner profile holding `pkgA` and disposition
input `remove`, the issued global uninstall of `pkgA` satisfies the gate. -/
theorem C10_witness :
    prC10.dispInput = "remove" ∧ pkgA ∈ getUnsafeToUninstall devC10.users :=
  (C10_global_uninstall_gate devC10 prC10 {App.Op.uninstall pkgA none true} false
      (by decide)).1 pkgA true (by decide)

/-- C5 counterexample: in the package entry point, the target is the
owner (uid 0), the disposition input is not `remove`, and yet a run
finishes having issued a user-scoped uninstall — no confirmation gates the
uninstall batch there (the typed `remove` gate exists only in the
standalone script). -/
theorem C5_counterexample :
    App.mainRun devC5 prC5
      = App.RunResult.finished {App.Op.uninstall pkgA (some 0) true} false
    ∧ prC5.dispInput ≠ "remove"
    ∧ prC5.user = some (User.mk "main" 0 {pkgA}) :=
  ⟨by decide, by decide, rfl⟩

/-- C5 amended: in the standalone script `qumupam.py`, when the target user
is the owner (uid 0) or the device has exactly one profile and the typed
confirmation is not exactly `remove`, every operation the run issues is an
install — no uninstall is issued, and the installs already applied are kept
(the run returns without rolling anything back). -/
theorem C5_amended (dev : Script.Device) (pr : Script.Prompts) (u : Script.User)
    (hu : pr.user = some u) (hcond : u.uid = 0 ∨ dev.users.length = 1)
    (hconfirm : pr.confirm ≠ "remove") :
    ∀ op ∈ Script.opsOf (Script.run dev pr), op.isInstall = true := by
  intro op hop
  simp only [Script.run, hu] at hop
  rcases hm : pr.mode with _ | mode
  · simp only [hm, Script.opsOf] at hop
    exact absurd hop (Multiset.not_mem_zero op)
  · simp only [hm] at hop
    rcases hp : Script.pendingOf dev.all_packages u.packages mode pr.packages
      with _ | pending
    · simp only [hp, Script.opsOf] at hop
      exact absurd hop (Multiset.not_mem_zero op)
    · simp only [hp] at hop
      rcases hq : (if pending.2 = ∅ then some true else pr.preserve) with _ | preserve
      · simp only [hq, Script.opsOf] at hop
        exact absurd hop (Multiset.not_mem_zero op)
      · simp only [hq] at hop
        by_cases hz : pending.2 = ∅
        · simp only [if_pos hz, Script.opsOf, Multiset.mem_map] at hop
          obtain ⟨q, -, rfl⟩ := hop
          rfl
        · simp only [if_neg hz, if_pos hcond, if_neg hconfirm, Script.opsOf,
            Multiset.mem_map] at hop
          obtain ⟨q, -, rfl⟩ := hop
          rfl

/-- C5 witness: a standalone-script run on the owner profile with a
non-`remove` confirmation issues only the install of `b` (kept, not rolled
back) and no uninstall. -/
theorem C5_witness : Script.Op.isInstall (Script.Op.install "b" 0) = true :=
  C5_amended sdevC5 sprC5 (Script.User.mk "main" 0 {"a"}) rfl (Or.inl rfl) (by decide)
    (Script.Op.install "b" 0) (by decide)

/-- C6: in both program variants, whenever a prompt that the run consults
returns no answer — the user prompt, the mode prompt, the `Select` package
prompt, or the preserve-data prompt reached with a nonempty pending
uninstall set — the run ends cancelled: no install or uninstall operation
is issued and no error is reported. -/
theorem C6_cancel (dev : App.Device) (pr : App.Prompts)
    (sdev : Script.Device) (spr : Script.Prompts) :
    (App.cancelCond dev pr → App.mainRun dev pr = App.RunResult.cancelled)
    ∧ (Script.cancelCond sdev spr → Script.run sdev spr = Script.RunResult.cancelled) := by
  constructor
  · intro h
    rcases h with h | h | ⟨h1, h2⟩ | ⟨u, hu, m, hm, pending, hp, hne, hpres⟩
    · simp [App.mainRun, h]
    · rcases hu : pr.user with _ | u <;> simp [App.mainRun, hu, h]
    · rcases hu : pr.user with _ | u <;>
        simp [App.mainRun, hu, h1, h2, App.pendingOf]
    · simp only [App.mainRun, hu, hm, hp, App.afterReconcile, if_neg hne, hpres]
  · intro h
    rcases h with h | h | ⟨h1, h2⟩ | ⟨u, hu, m, hm, pending, hp, hne, hpres⟩
    · simp [Script.run, h]
    · rcases hu : spr.user with _ | u <;> simp [Script.run, hu, h]
    · rcases hu : spr.user with _ | u <;>
        simp [Script.run, hu, h1, h2, Script.pendingOf]
    · simp only [Script.run, hu, hm, hp, if_neg hne, hpres]

/-- C6 witness: cancelling the first prompt cancels both variants' runs. -/
theorem C6_witness :
    App.mainRun devC6 prC6 = App.RunResult.cancelled
    ∧ Script.run sdevC6 sprC6 = Script.RunResult.cancelled :=
  ⟨(C6_cancel devC6 prC6 sdevC6 sprC6).1 (Or.inl rfl),
   (C6_cancel devC6 prC6 sdevC6 sprC6).2 (Or.inl rfl)⟩
